import Mathlib

/-!
# aws-creds: the credential broker of `main.go`

A shallow embedding of `main.go` (package `main` of `sensiblecodeio/aws-creds`).

The program is sequential Go code over four pieces of outside state: the process
environment, one cache file, the wall clock and three external services (the PIN
prompt, the STS provider and `execve`).  Every Go function of `main.go` is a function
`World → Result α × World` here: the outside state is a `World`, everything the
program does to the outside is appended to `World.trace`, and a run can end in a
return value, a run-time panic, `os.Exit`, or a successful `syscall.Exec`.

Library code that `main.go` calls (`time`, `os`, `syscall`, `encoding/json`,
`pinentry`, the AWS SDK) is represented by small models of its documented behaviour,
each marked as such.
-/

set_option autoImplicit false

namespace AwsCreds

/-! ## `time` -/

/-- `time.Time` as an absolute instant: nanoseconds since the Unix epoch.  Cached
expirations carry no monotonic clock reading (they come out of the JSON decoder), so
every comparison in `main.go` is a comparison of wall-clock instants. -/
structure Time where
  unixNano : Int
deriving DecidableEq

/-- `time.Duration` is an `int64` count of nanoseconds. -/
abbrev Duration := Int

/-- `minDuration = -1 << 63` of package `time`. -/
def minDuration : Duration := -9223372036854775808

/-- `maxDuration = 1<<63 - 1` of package `time`. -/
def maxDuration : Duration := 9223372036854775807

/-- `time.Hour`, in nanoseconds. -/
def Hour : Duration := 3600000000000

/-- Two's-complement reduction of an integer to `int64`: the value Go's `int64`
arithmetic leaves after an operation whose exact result is `x`. -/
def wrapInt64 (x : Int) : Int :=
  (x + 9223372036854775808) % 18446744073709551616 - 9223372036854775808

/-- Unary minus on a `time.Duration` (`-d` in Go), which wraps at `int64`. -/
def Duration.neg (d : Duration) : Duration := wrapInt64 (-d)

/-- `Time.Before`: `t.Before(u)` reports whether the instant `t` is before `u`. -/
def Time.Before (t u : Time) : Bool := decide (t.unixNano < u.unixNano)

/-- `Time.Add`, for instants inside the range `time.Time` represents exactly. -/
def Time.Add (t : Time) (d : Duration) : Time := ⟨t.unixNano + d⟩

/-- `Time.Sub` of package `time`:
```go
d := Duration(t.sec()-u.sec())*Second + Duration(t.nsec()-u.nsec())
switch {
case u.Add(d).Equal(t): return d           // d is correct
case t.Before(u):       return minDuration // t - u is negative out of range
default:                return maxDuration // t - u is positive out of range
}
```
The difference is computed in `int64` and replaced by the nearest bound when it does
not fit. -/
def Time.Sub (t u : Time) : Duration :=
  let d := wrapInt64 (t.unixNano - u.unixNano)
  if u.Add d = t then d
  else if t.Before u then minDuration
  else maxDuration

/-- `time.Since(t)` is `time.Now().Sub(t)`; `now` is the clock reading it takes. -/
def Since (now t : Time) : Duration := now.Sub t

/-! ## Errors -/

/-- Error values made outside `main.go` and handed to it by a library call. -/
inductive LibError where
  /-- The sentinel `pinentry.ErrCancel`. -/
  | ErrCancel
  /-- An error for which `os.IsNotExist` holds (`ENOENT` under an `*os.PathError`). -/
  | notExist (msg : String)
  /-- Any other library error. -/
  | other (msg : String)
deriving DecidableEq

/-- The `Error()` text of a library error. -/
def LibError.Error : LibError → String
  | .ErrCancel => "pinentry: Cancel"
  | .notExist msg => msg
  | .other msg => msg

/-- `os.IsNotExist`. -/
def IsNotExist : LibError → Bool
  | .notExist _ => true
  | _ => false

/-- A Go `error` value as `main.go` sees it: either a library value passed along
unchanged, or a value freshly allocated by a `fmt.Errorf` call of `main.go` (whose
identity therefore differs from that of every library value). -/
inductive GoError where
  | lib (e : LibError)
  | Errorf (msg : String)
deriving DecidableEq

/-- The `Error()` text of an error value. -/
def GoError.Error : GoError → String
  | .lib e => e.Error
  | .Errorf msg => msg

/-! ## `sts.Credentials` and sessions -/

/-- `sts.Credentials` of the AWS SDK: four pointer fields, `none` being a nil pointer.
```go
type Credentials struct {
    AccessKeyId     *string
    Expiration      *time.Time
    SecretAccessKey *string
    SessionToken    *string
}
``` -/
structure Credentials where
  AccessKeyId : Option String
  Expiration : Option Time
  SecretAccessKey : Option String
  SessionToken : Option String
deriving DecidableEq

/-- A `*session.Session`: the base session built from the shared configuration, or a
copy of it carrying static credentials. -/
inductive Session where
  | base
  | withStatic (accessKeyId secretAccessKey sessionToken : String)
deriving DecidableEq

/-! ## The cache file -/

/-- The bytes of a file, as `json.NewDecoder(fd).Decode(&c)` with `c` a zero
`sts.Credentials` reads them: either they decode without error and leave `c` as the
given record (the bytes `{}` leave all four fields nil), or `Decode` reports an
error. -/
inductive FileContent where
  | record (c : Credentials)
  | invalid (e : LibError)
deriving DecidableEq

/-- What sits at a path. -/
inductive Node where
  /-- No such file: `os.Open` fails with an error satisfying `os.IsNotExist`. -/
  | missing
  /-- `os.Open` fails with the given error (for instance a permission error). -/
  | failing (e : LibError)
  /-- A readable file. -/
  | file (content : FileContent)
deriving DecidableEq

/-- The file system: the node at each path, and the error (if any) with which
`os.Create` of a path, or a write to the created file, fails. -/
structure FS where
  node : String → Node
  createErr : String → Option LibError
  writeErr : String → Option LibError

/-- `os.Open`. -/
def FS.Open (fs : FS) (path : String) : Except LibError FileContent :=
  match fs.node path with
  | .missing => .error (.notExist ("open " ++ path ++ ": no such file or directory"))
  | .failing e => .error e
  | .file content => .ok content

/-- The file system with the file at `path` holding `content`. -/
def FS.put (fs : FS) (path : String) (content : FileContent) : FS :=
  { fs with node := fun q => if q = path then .file content else fs.node q }

/-- The decoder's view of an empty file: `Decode` reports `io.EOF`. -/
def emptyFile : FileContent := .invalid (.other "EOF")

/-- First instant of year 0 (UTC), in nanoseconds since the Unix epoch:
`Time.MarshalJSON` refuses years outside `[0,9999]`. -/
def marshalLo : Int := -62167219200000000000

/-- First instant of year 10000 (UTC), in nanoseconds since the Unix epoch. -/
def marshalHi : Int := 253402300800000000000

/-- `json.NewEncoder(fd).Encode(creds)` for `creds *sts.Credentials`, giving the
content written: a nil pointer is written as `null`, which decodes leaving all fields
nil; a record is written with its four fields, strings as JSON strings and the
expiration in RFC 3339 with nanoseconds, and decodes to the same record; an
expiration outside the years `[0,9999]` makes `Encode` fail before anything is
written. -/
def jsonEncode : Option Credentials → Except LibError FileContent
  | none => .ok (.record ⟨none, none, none, none⟩)
  | some c =>
    match c.Expiration with
    | none => .ok (.record c)
    | some t =>
      if marshalLo ≤ t.unixNano ∧ t.unixNano < marshalHi then .ok (.record c)
      else .error (.other "json: error calling MarshalJSON for type time.Time")

/-! ## The process environment (`syscall` package) -/

/-- `copyenv` of package `syscall`: of the entries `KEY=value` the process inherited,
the first mention of each key is kept and later duplicates are cleared. `seen` is the
set of keys already mentioned. -/
def copyenvFrom (seen : List String) : List (String × String) → List (String × String)
  | [] => []
  | (k, v) :: rest =>
    if k ∈ seen then copyenvFrom seen rest
    else (k, v) :: copyenvFrom (k :: seen) rest

/-- `copyenv` from the start of the inherited environment. -/
def copyenv (envs : List (String × String)) : List (String × String) :=
  copyenvFrom [] envs

/-- The value of the first entry with key `key`. -/
def lookupEnv (key : String) : List (String × String) → Option String
  | [] => none
  | (k, v) :: rest => if k = key then some v else lookupEnv key rest

/-- Replace the value of the first entry with key `key`, or append the entry. -/
def setEntry (key value : String) : List (String × String) → List (String × String)
  | [] => [(key, value)]
  | (k, v) :: rest =>
    if k = key then (key, value) :: rest else (k, v) :: setEntry key value rest

/-- A string with a NUL byte. -/
def hasNul (s : String) : Bool := s.data.any (fun c => c = Char.ofNat 0)

/-- A key `syscall.Setenv` rejects: empty, or containing `=` or NUL. -/
def badKey (s : String) : Bool :=
  s.data.isEmpty || s.data.any (fun c => c = Char.ofNat 61 || c = Char.ofNat 0)

/-- `syscall.Setenv`: `EINVAL` and no change for a bad key or a value with a NUL byte;
otherwise the entry of the key is replaced in place, or appended. -/
def syscallSetenv (envs : List (String × String)) (key value : String) :
    Option LibError × List (String × String) :=
  if badKey key then (some (.other "invalid argument"), copyenv envs)
  else if hasNul value then (some (.other "invalid argument"), copyenv envs)
  else (none, setEntry key value (copyenv envs))

/-! ## The world and the result of a run -/

/-- What `main.go` does to the outside, in order. -/
inductive Event where
  /-- A line of `log.Printf`. -/
  | log (line : String)
  /-- A line of `log.Printf` whose format ends in a duration `%v`. -/
  | logDuration (text : String) (d : Duration)
  /-- The error printed by `log.Fatal`. -/
  | fatal (e : GoError)
  /-- Bytes written to standard output. -/
  | stdout (s : String)
  /-- A call of `pinentry.Request.GetPIN`. -/
  | getPIN (prompt desc : String)
  /-- A call of `sts.GetSessionToken`. -/
  | getSessionToken (sess : Session) (serial token : String)
  /-- A call of `sts.AssumeRole`. -/
  | assumeRole (sess : Session) (durationSeconds : Int) (arn sessionName : String)
  /-- A call of `os.Create`. -/
  | create (path : String)
  /-- A call of `syscall.Exec`. -/
  | exec (path : String) (argv : List String) (envv : List (String × String))
deriving DecidableEq

/-- The outside state of a run. -/
structure World where
  /-- `os.Args`. -/
  Args : List String
  /-- The entries `KEY=value` of the process environment, first as inherited. -/
  envs : List (String × String)
  /-- The wall clock: the value of the `n`-th call of `time.Now`. -/
  clock : Nat → Time
  /-- The number of calls of `time.Now` so far. -/
  ticks : Nat
  fs : FS
  /-- The error of `session.NewSessionWithOptions`, if it fails. -/
  newSessionErr : Option LibError
  /-- The answer of the PIN prompt for a prompt text and a description. -/
  GetPIN : String → String → Except LibError String
  /-- The answer of the provider: the `Credentials` pointer of the response, or the error. -/
  stsGetSessionToken : Session → String → String → Except LibError (Option Credentials)
  stsAssumeRole : Session → Int → String → String → Except LibError (Option Credentials)
  /-- `exec.LookPath`. -/
  LookPath : String → Except LibError String
  /-- `execve`: `none` when the process image is replaced, else the error returned. -/
  execve : String → List String → List (String × String) → Option LibError
  /-- Everything done so far. -/
  trace : List Event

/-- How a run ends other than by returning. -/
inductive Stop where
  /-- Run-time panic: nil pointer dereference. -/
  | nilDeref
  /-- Run-time panic: index or slice bound out of range. -/
  | outOfRange
  /-- The panic of `session.Must`. -/
  | mustFailed (e : LibError)
  /-- The call of `os.Exit` inside `log.Fatal`. -/
  | exited (code : Nat)
  /-- The process image was replaced by `syscall.Exec`. -/
  | replaced
deriving DecidableEq

/-- The result of running a Go function: it returned a value, or the run stopped. -/
inductive Result (α : Type) where
  | ret (a : α)
  | stop (s : Stop)
deriving DecidableEq

/-- A Go function of `main.go`: from the world before to its result and the world after. -/
def M (α : Type) : Type := World → Result α × World

/-- Sequencing: the second function runs only if the first returned. -/
def M.bind {α β : Type} (m : M α) (f : α → M β) : M β := fun w =>
  match m w with
  | (.ret a, w1) => f a w1
  | (.stop s, w1) => (.stop s, w1)

instance : Monad M where
  pure a := fun w => (.ret a, w)
  bind := M.bind

/-- Stop the run. -/
def halt {α : Type} (s : Stop) : M α := fun w => (.stop s, w)

/-- Append an event to the trace. -/
def emit (e : Event) : M Unit := fun w => (.ret (), { w with trace := w.trace ++ [e] })

/-- `time.Now()`. -/
def timeNow : M Time := fun w => (.ret (w.clock w.ticks), { w with ticks := w.ticks + 1 })

/-- `os.Getenv`: the value of the key, or the empty string. -/
def Getenv (key : String) : M String := fun w =>
  (.ret ((lookupEnv key (copyenv w.envs)).getD ""), w)

/-- `os.Setenv`. -/
def Setenv (key value : String) : M (Option LibError) := fun w =>
  (.ret (syscallSetenv w.envs key value).1, { w with envs := (syscallSetenv w.envs key value).2 })

/-- `os.Environ`. -/
def Environ : M (List (String × String)) := fun w => (.ret (copyenv w.envs), w)

/-- `os.Open`, giving the content a decoder will read from the file. -/
def osOpen (path : String) : M (Except LibError FileContent) := fun w =>
  (.ret (w.fs.Open path), w)

/-- `os.Args`. -/
def osArgs : M (List String) := fun w => (.ret w.Args, w)

/-- `exec.LookPath`. -/
def execLookPath (file : String) : M (Except LibError String) := fun w =>
  (.ret (w.LookPath file), w)

/-- `session.Must(session.NewSessionWithOptions(...))`: panics when the session cannot
be built. -/
def mustNewSession : M Session := fun w =>
  match w.newSessionErr with
  | some e => (.stop (.mustFailed e), w)
  | none => (.ret Session.base, w)

/-- `log.Printf` with a constant line. -/
def logPrintf (line : String) : M Unit := emit (.log line)

/-- `log.Fatal(err)`: print the error and exit with status 1. -/
def logFatal {α : Type} (err : GoError) : M α := do
  emit (.fatal err)
  halt (.exited 1)

/-- `filepath.Join` on elements that need no cleaning: the non-empty elements joined
by the separator. -/
def filepathJoin (elems : List String) : String :=
  "/".intercalate (elems.filter (fun e => e ≠ ""))

/-- The value `cachePath()` returns in a world. -/
def World.cacheFile (w : World) : String :=
  filepathJoin [(lookupEnv "HOME" (copyenv w.envs)).getD "", ".aws", "credcache.json"]

/-- The value `os.Getenv("AWS_MFA_SERIAL")` returns in a world. -/
def World.mfaSerial (w : World) : String :=
  (lookupEnv "AWS_MFA_SERIAL" (copyenv w.envs)).getD ""

/-! ## `main.go` -/

/-- `cachePath`:
```go
return filepath.Join(os.Getenv("HOME"), ".aws", "credcache.json")
``` -/
def cachePath : M String := do
  let home ← Getenv "HOME"
  pure (filepathJoin [home, ".aws", "credcache.json"])

/-- `loadCache`:
```go
fd, err := os.Open(cachePath())
switch {
default:
    return nil, false, err
case os.IsNotExist(err):
    return nil, false, err
case err == nil:
    // OK
}
defer fd.Close()
dec := json.NewDecoder(fd)
var c sts.Credentials
err = dec.Decode(&c)
if err != nil {
    return nil, false, err
}
if c.Expiration.Before(time.Now()) {
    log.Printf("Cached credentials expired.")
    return nil, false, nil
}
remaining := -time.Since(*c.Expiration)
if remaining < 1*time.Hour {
    log.Printf("Cached credentials expire in less than 1 hour, refreshing.")
    return nil, false, nil
}
return &c, true, nil
```
The tagless `switch` takes the first case that holds and `default` only when none
does; both `default` and the `os.IsNotExist(err)` case return `nil, false, err`.
`c.Expiration` is a `*time.Time`: the call of `Before`, whose receiver is a
`time.Time`, dereferences the pointer. -/
def loadCache : M (Option Credentials × Bool × Option GoError) := do
  let path ← cachePath
  let opened ← osOpen path
  match opened with
  | .error err =>
    if IsNotExist err then
      pure (none, false, some (.lib err))        -- case os.IsNotExist(err)
    else
      pure (none, false, some (.lib err))        -- default
  | .ok fd =>                                    -- case err == nil
    match fd with
    | .invalid err => pure (none, false, some (.lib err))
    | .record c =>
      match c.Expiration with
      | none => halt .nilDeref
      | some expiration => do
        let now ← timeNow
        if expiration.Before now then do
          logPrintf "Cached credentials expired."
          pure (none, false, none)
        else do
          let now2 ← timeNow
          let remaining := Duration.neg (Since now2 expiration)
          if remaining < 1 * Hour then do
            logPrintf "Cached credentials expire in less than 1 hour, refreshing."
            pure (none, false, none)
          else
            pure (some c, true, none)

/-- `os.Create`: on success the file exists and is empty. -/
def osCreate (path : String) : M (Option LibError) := fun w =>
  match w.fs.createErr path with
  | some e => (.ret (some e), { w with trace := w.trace ++ [.create path] })
  | none =>
    (.ret none, { w with fs := w.fs.put path emptyFile, trace := w.trace ++ [.create path] })

/-- `json.NewEncoder(fd).Encode(creds)` on the file just created at `path`; a failed
write leaves the file empty. -/
def encodeTo (path : String) (creds : Option Credentials) : M (Option LibError) := fun w =>
  match jsonEncode creds with
  | .error e => (.ret (some e), w)
  | .ok content =>
    match w.fs.writeErr path with
    | some e => (.ret (some e), w)
    | none => (.ret none, { w with fs := w.fs.put path content })

/-- `saveCache`:
```go
fd, err := os.Create(cachePath())
if err != nil {
    return err
}
defer fd.Close()
enc := json.NewEncoder(fd)
return enc.Encode(creds)
``` -/
def saveCache (creds : Option Credentials) : M (Option LibError) := do
  let path ← cachePath
  let err ← osCreate path
  match err with
  | some e => pure (some e)
  | none => encodeTo path creds

/-- `mfaPrompt`:
```go
r := pinentry.Request{
    Prompt: "AWS MFA for " + os.Args[0],
    Desc:   "Enter MFA token for " + serial,
}
return r.GetPIN()
``` -/
def mfaPrompt (serial : String) : M (Except LibError String) := fun w =>
  match w.Args with
  | [] => (.stop .outOfRange, w)
  | arg0 :: _ =>
    (.ret (w.GetPIN ("AWS MFA for " ++ arg0) ("Enter MFA token for " ++ serial)),
      { w with trace := w.trace ++
          [.getPIN ("AWS MFA for " ++ arg0) ("Enter MFA token for " ++ serial)] })

/-- `getSessionToken`: on an error of the provider `nil, err`, else the `Credentials`
pointer of the response and a nil error. -/
def getSessionToken (sess : Session) (serial token : String) :
    M (Option Credentials × Option GoError) := fun w =>
  match w.stsGetSessionToken sess serial token with
  | .error err =>
    (.ret (none, some (.lib err)),
      { w with trace := w.trace ++ [.getSessionToken sess serial token] })
  | .ok creds =>
    (.ret (creds, none), { w with trace := w.trace ++ [.getSessionToken sess serial token] })

/-- `assumeRole`, which asks for `DurationSeconds: 3600`. -/
def assumeRole (sess : Session) (arn sessionName : String) :
    M (Option Credentials × Option GoError) := fun w =>
  match w.stsAssumeRole sess 3600 arn sessionName with
  | .error err =>
    (.ret (none, some (.lib err)),
      { w with trace := w.trace ++ [.assumeRole sess 3600 arn sessionName] })
  | .ok creds =>
    (.ret (creds, none), { w with trace := w.trace ++ [.assumeRole sess 3600 arn sessionName] })

/-- `getMFACreds`:
```go
cached, ok, err := loadCache()
if err != nil {
    return nil, err
}
if ok {
    return cached, nil
}
serial := os.Getenv("AWS_MFA_SERIAL")
token, err := mfaPrompt(serial)
if err == pinentry.ErrCancel {
    return nil, fmt.Errorf("PIN entry cancelled")
} else if err != nil {
    return nil, err
}
creds, err := getSessionToken(sess, serial, token)
if err != nil {
    return nil, err
}
err = saveCache(creds)
if err != nil {
    return nil, fmt.Errorf("saveCache: %v", err)
}
return creds, err
``` -/
def getMFACreds (sess : Session) : M (Option Credentials × Option GoError) := do
  let (cached, ok, err) ← loadCache
  match err with
  | some e => pure (none, some e)
  | none =>
    if ok then pure (cached, none)
    else do
      let serial ← Getenv "AWS_MFA_SERIAL"
      let prompted ← mfaPrompt serial
      match prompted with
      | .error err =>
        if err = .ErrCancel then pure (none, some (.Errorf "PIN entry cancelled"))
        else pure (none, some (.lib err))
      | .ok token => do
        let (creds, err) ← getSessionToken sess serial token
        match err with
        | some e => pure (none, some e)
        | none => do
          let err ← saveCache creds
          match err with
          | some e => pure (none, some (.Errorf ("saveCache: " ++ e.Error)))
          | none => pure (creds, none)

/-- `sessionWithCredentials`: a copy of the session with the three fields as static
credentials; each field is dereferenced. -/
def sessionWithCredentials (_sess : Session) (c : Option Credentials) : M Session :=
  match c with
  | none => halt .nilDeref
  | some c =>
    match c.AccessKeyId, c.SecretAccessKey, c.SessionToken with
    | some id, some secret, some token => pure (.withStatic id secret token)
    | _, _, _ => halt .nilDeref

/-- `fmt.Print` of operands that are all strings: they are written one after the
other (a space is added only between two operands neither of which is a string). -/
def fmtPrint (operands : List String) : M Unit := emit (.stdout (String.join operands))

/-- `printCreds`:
```go
fmt.Print(
    "export",
    " AWS_ACCESS_KEY_ID=", *creds.AccessKeyId,
    " AWS_SECRET_ACCESS_KEY=", *creds.SecretAccessKey,
    " AWS_SESSION_TOKEN=", *creds.SessionToken,
    "\n",
)
```
The operands are evaluated, dereferencing the three pointers, before anything is
written. -/
def printCreds (creds : Option Credentials) : M Unit :=
  match creds with
  | none => halt .nilDeref
  | some c =>
    match c.AccessKeyId, c.SecretAccessKey, c.SessionToken with
    | some id, some secret, some token =>
      fmtPrint ["export",
        " AWS_ACCESS_KEY_ID=", id,
        " AWS_SECRET_ACCESS_KEY=", secret,
        " AWS_SESSION_TOKEN=", token,
        "\n"]
    | _, _, _ => halt .nilDeref

/-- `syscall.Exec`: returns only when it fails. -/
def syscallExec (path : String) (argv : List String) (envv : List (String × String)) :
    M (Option GoError) := fun w =>
  match w.execve path argv envv with
  | none => (.stop .replaced, { w with trace := w.trace ++ [.exec path argv envv] })
  | some e => (.ret (some (.lib e)), { w with trace := w.trace ++ [.exec path argv envv] })

/-- `runWithCreds`:
```go
os.Setenv("AWS_ACCESS_KEY_ID", *creds.AccessKeyId)
os.Setenv("AWS_SECRET_ACCESS_KEY", *creds.SecretAccessKey)
os.Setenv("AWS_SESSION_TOKEN", *creds.SessionToken)
execPath, err := exec.LookPath(args[0])
if err != nil {
    return err
}
return syscall.Exec(execPath, args, os.Environ())
```
The result of each `os.Setenv` is dropped. -/
def runWithCreds (creds : Option Credentials) (args : List String) : M (Option GoError) :=
  match creds with
  | none => halt .nilDeref
  | some c =>
    match c.AccessKeyId with
    | none => halt .nilDeref
    | some id => do
      let _ ← Setenv "AWS_ACCESS_KEY_ID" id
      match c.SecretAccessKey with
      | none => halt .nilDeref
      | some secret => do
        let _ ← Setenv "AWS_SECRET_ACCESS_KEY" secret
        match c.SessionToken with
        | none => halt .nilDeref
        | some token => do
          let _ ← Setenv "AWS_SESSION_TOKEN" token
          match args with
          | [] => halt .outOfRange
          | arg0 :: _ => do
            let found ← execLookPath arg0
            match found with
            | .error err => pure (some (.lib err))
            | .ok execPath => do
              let envv ← Environ
              syscallExec execPath args envv

/-- `until(*creds.Expiration)` of `main`, with `until(t) = -time.Since(t)`. -/
def untilExpiration (creds : Option Credentials) : M Duration :=
  match creds with
  | none => halt .nilDeref
  | some c =>
    match c.Expiration with
    | none => halt .nilDeref
    | some t => do
      let now ← timeNow
      pure (Duration.neg (Since now t))

/-- The last step of `main` (lines 47 to 55), on the role credentials:
```go
args := os.Args[1:]
if len(args) == 0 {
    printCreds(creds)
    return
}
err = runWithCreds(creds, args)
if err != nil {
    log.Fatal(err)
}
``` -/
def dispatch (creds : Option Credentials) : M Unit := do
  let argv ← osArgs
  match argv with
  | [] => halt .outOfRange
  | _ :: args =>
    if args.length = 0 then
      printCreds creds
    else do
      let err ← runWithCreds creds args
      match err with
      | some e => logFatal e
      | none => pure ()

/-- The steps of `main` before the last (lines 22 to 45): the session credentials from
`getMFACreds`, then the role credentials from `assumeRole`; `log.Fatal` on an error of
either.
```go
baseSession := session.Must(session.NewSessionWithOptions(...))
creds, err := getMFACreds(baseSession)
if err != nil {
    log.Fatal(err)
}
log.Printf("Credentials expire in %v", until(*creds.Expiration))
arn := os.Getenv("AWS_ASSUME_ROLE")
roleSessionName := os.Getenv("AWS_ASSUME_ROLE_SESSION_NAME")
sess := sessionWithCredentials(baseSession, creds)
creds, err = assumeRole(sess, arn, roleSessionName)
if err != nil {
    log.Fatal(err)
}
log.Printf("Role creds expire in %v", until(*creds.Expiration))
``` -/
def roleCreds : M (Option Credentials) := do
  let baseSession ← mustNewSession
  let (creds, err) ← getMFACreds baseSession
  match err with
  | some e => logFatal e
  | none => do
    let d ← untilExpiration creds
    emit (.logDuration "Credentials expire in " d)
    let arn ← Getenv "AWS_ASSUME_ROLE"
    let roleSessionName ← Getenv "AWS_ASSUME_ROLE_SESSION_NAME"
    let sess ← sessionWithCredentials baseSession creds
    let (creds, err) ← assumeRole sess arn roleSessionName
    match err with
    | some e => logFatal e
    | none => do
      let d ← untilExpiration creds
      emit (.logDuration "Role creds expire in " d)
      pure creds

/-- `main`: the role credentials, then the dispatch on the trailing arguments. -/
def main : M Unit := do
  let creds ← roleCreds
  dispatch creds

/-! ## Frame of a run -/

/-- The world `w1` comes after `w` in a run that called `syscall.Exec` nowhere in
between: `os.Args` is the same and the trace grew by events none of which is an
`exec`. -/
def Extends (w w1 : World) : Prop :=
  w1.Args = w.Args ∧
    ∃ evs : List Event, w1.trace = w.trace ++ evs ∧
      ∀ e ∈ evs, ∀ (p : String) (a : List String) (v : List (String × String)),
        e ≠ Event.exec p a v

/-- A function none of whose runs calls `syscall.Exec`, replaces the process image or
changes `os.Args`. -/
def Quiet {α : Type} (m : M α) : Prop :=
  ∀ w : World, (m w).1 ≠ .stop .replaced ∧ Extends w (m w).2

/-! ## Concrete worlds -/

/-- The instant 2026-11-04T00:00:00Z. -/
def sampleNow : Time := ⟨1793750400000000000⟩

/-- A file system with no file at all, in which files can be created and written. -/
def sampleFS : FS where
  node := fun _ => .missing
  createErr := fun _ => none
  writeErr := fun _ => none

/-- Role credentials of a provider. -/
def sampleRoleCreds : Credentials :=
  ⟨some "ASIAROLE", some ⟨1793754000000000000⟩, some "rolesecret", some "roletoken"⟩

/-- A world with home directory `/home/u` and no cache file, a clock standing at
`sampleNow`, a prompt that is cancelled and a provider that refuses the session
token. -/
def sampleWorld : World where
  Args := ["aws-creds"]
  envs := [("HOME", "/home/u"), ("AWS_MFA_SERIAL", "mfa/u"), ("AWS_SESSION_TOKEN", "old")]
  clock := fun _ => sampleNow
  ticks := 0
  fs := sampleFS
  newSessionErr := none
  GetPIN := fun _ _ => .error .ErrCancel
  stsGetSessionToken := fun _ _ _ => .error (.other "AccessDenied")
  stsAssumeRole := fun _ _ _ _ => .ok (some sampleRoleCreds)
  LookPath := fun file => if file = "echo" then .ok "/bin/echo" else .error (.other "not found")
  execve := fun _ _ _ => none
  trace := []

/-- Session credentials expiring `ahead` nanoseconds after `sampleNow`. -/
def credsExpiringIn (ahead : Int) : Credentials :=
  ⟨some "ASIASESSION", some ⟨sampleNow.unixNano + ahead⟩, some "secret", some "token"⟩

/-- The world `sampleWorld` with a cache file holding the given record. -/
def worldWithCache (c : Credentials) : World :=
  { sampleWorld with fs := sampleFS.put "/home/u/.aws/credcache.json" (.record c) }

/-- The world `worldWithCache c` with a prompt that answers `123456`. -/
def worldWithPin (c : Credentials) : World :=
  { worldWithCache c with GetPIN := fun _ _ => .ok "123456" }

/-- The instant 2400-01-01T00:00:00Z, more than `2^63` nanoseconds after `sampleNow`. -/
def farExpiry : Time := ⟨13569465600000000000⟩

/-- Credentials expiring at `farExpiry`. -/
def credsFarExpiry : Credentials :=
  ⟨some "ASIASESSION", some farExpiry, some "secret", some "token"⟩

/-- Role credentials whose access key id holds a NUL byte. -/
def credsWithNul : Credentials :=
  ⟨some (String.mk [Char.ofNat 0]), some ⟨1793754000000000000⟩, some "rolesecret",
    some "roletoken"⟩

end AwsCreds

namespace AwsCreds

/-! ## Running a function -/

theorem bind_apply {α β : Type} (m : M α) (f : α → M β) (w : World) :
    (m >>= f) w = M.bind m f w := rfl

theorem pure_apply {α : Type} (a : α) (w : World) : (pure a : M α) w = (.ret a, w) := rfl

theorem cachePath_apply (w : World) : cachePath w = (.ret w.cacheFile, w) := rfl

/-! ## The arithmetic of the expiry test -/

/-- The test `remaining < 1*time.Hour` of `loadCache`, in terms of the exact distance
from the clock reading to the expiration: it holds when the distance is under an hour,
and also when the distance is `2^63` nanoseconds or more, where `time.Since` saturates
at `minDuration` and the negation wraps back to `minDuration`. -/
theorem remaining_lt_hour_iff (now exp : Time) :
    Duration.neg (Since now exp) < Hour ↔
      (exp.unixNano - now.unixNano < 3600000000000 ∨
        9223372036854775808 ≤ exp.unixNano - now.unixNano) := by
  obtain ⟨n⟩ := now
  obtain ⟨e⟩ := exp
  simp only [Duration, Duration.neg, Since, Time.Sub, Time.Add, Time.Before, wrapInt64, Hour,
    minDuration, maxDuration, Time.mk.injEq, decide_eq_true_eq]
  split_ifs <;> constructor <;> intro h <;> omega

theorem before_iff (t u : Time) : t.Before u = true ↔ t.unixNano < u.unixNano := by
  simp [Time.Before]

/-! ## `loadCache`, case by case -/

theorem loadCache_missing (w : World) (h : w.fs.node w.cacheFile = .missing) :
    loadCache w = (.ret (none, false, some (.lib (.notExist
      ("open " ++ w.cacheFile ++ ": no such file or directory")))), w) := by
  simp [loadCache, bind_apply, M.bind, cachePath_apply, osOpen, FS.Open, h, IsNotExist,
    pure_apply]

theorem loadCache_failing (w : World) (e : LibError)
    (h : w.fs.node w.cacheFile = .failing e) :
    loadCache w = (.ret (none, false, some (.lib e)), w) := by
  simp [loadCache, bind_apply, M.bind, cachePath_apply, osOpen, FS.Open, h, pure_apply]

theorem loadCache_invalid (w : World) (e : LibError)
    (h : w.fs.node w.cacheFile = .file (.invalid e)) :
    loadCache w = (.ret (none, false, some (.lib e)), w) := by
  simp [loadCache, bind_apply, M.bind, cachePath_apply, osOpen, FS.Open, h, pure_apply]

theorem loadCache_record_none (w : World) (c : Credentials)
    (h : w.fs.node w.cacheFile = .file (.record c)) (hexp : c.Expiration = none) :
    loadCache w = (.stop .nilDeref, w) := by
  simp [loadCache, bind_apply, M.bind, cachePath_apply, osOpen, FS.Open, h, hexp, halt]

theorem loadCache_record_some (w : World) (c : Credentials) (exp : Time)
    (h : w.fs.node w.cacheFile = .file (.record c)) (hexp : c.Expiration = some exp) :
    loadCache w =
      if exp.Before (w.clock w.ticks) = true then
        (.ret (none, false, none),
          { w with ticks := w.ticks + 1,
                   trace := w.trace ++ [.log "Cached credentials expired."] })
      else if Duration.neg (Since (w.clock (w.ticks + 1)) exp) < Hour then
        (.ret (none, false, none),
          { w with ticks := w.ticks + 1 + 1,
                   trace := w.trace ++
                     [.log "Cached credentials expire in less than 1 hour, refreshing."] })
      else (.ret (some c, true, none), { w with ticks := w.ticks + 1 + 1 }) := by
  by_cases h1 : exp.Before (w.clock w.ticks) = true
  · simp [loadCache, bind_apply, M.bind, cachePath_apply, osOpen, FS.Open, h, hexp, timeNow,
      logPrintf, emit, pure_apply, h1]
  · by_cases h2 : Duration.neg (Since (w.clock (w.ticks + 1)) exp) < Hour
    · simp [loadCache, bind_apply, M.bind, cachePath_apply, osOpen, FS.Open, h, hexp,
        timeNow, logPrintf, emit, pure_apply, h1, h2]
    · simp [loadCache, bind_apply, M.bind, cachePath_apply, osOpen, FS.Open, h, hexp,
        timeNow, logPrintf, emit, pure_apply, h1, h2]

/-- What `loadCache` leaves of the world: only the clock has been read and lines have
been logged. -/
theorem loadCache_world (w : World) :
    ∃ (n : Nat) (logs : List Event),
      (loadCache w).2 = { w with ticks := w.ticks + n, trace := w.trace ++ logs } ∧
      ∀ e ∈ logs, ∃ line, e = Event.log line := by
  cases h : w.fs.node w.cacheFile with
  | missing => exact ⟨0, [], by simp [loadCache_missing w h], by simp⟩
  | failing e => exact ⟨0, [], by simp [loadCache_failing w e h], by simp⟩
  | file content =>
    cases content with
    | invalid e => exact ⟨0, [], by simp [loadCache_invalid w e h], by simp⟩
    | record c =>
      cases hexp : c.Expiration with
      | none => exact ⟨0, [], by simp [loadCache_record_none w c h hexp], by simp⟩
      | some exp =>
        rw [loadCache_record_some w c exp h hexp]
        split_ifs
        · exact ⟨1, [.log "Cached credentials expired."], rfl, by simp⟩
        · exact ⟨2, [.log "Cached credentials expire in less than 1 hour, refreshing."],
            rfl, by simp⟩
        · exact ⟨2, [], by simp, by simp⟩

/-- A cache hit comes with a nil error, a non-nil record, no log line and an untouched
file system. -/
theorem loadCache_found (w w1 : World) (cached : Option Credentials) (err : Option GoError)
    (h : loadCache w = (.ret (cached, true, err), w1)) :
    err = none ∧ (∃ c, cached = some c) ∧ w1.trace = w.trace ∧ w1.fs = w.fs ∧
      w1.envs = w.envs := by
  cases hn : w.fs.node w.cacheFile with
  | missing => rw [loadCache_missing w hn] at h; simp at h
  | failing e => rw [loadCache_failing w e hn] at h; simp at h
  | file content =>
    cases content with
    | invalid e => rw [loadCache_invalid w e hn] at h; simp at h
    | record c =>
      cases hexp : c.Expiration with
      | none => rw [loadCache_record_none w c hn hexp] at h; simp at h
      | some exp =>
        rw [loadCache_record_some w c exp hn hexp] at h
        split_ifs at h
        · simp at h
        · simp at h
        · simp only [Prod.mk.injEq, Result.ret.injEq, true_and] at h
          obtain ⟨⟨hc, he⟩, hw⟩ := h
          subst hw
          exact ⟨he.symm, ⟨c, hc.symm⟩, rfl, rfl, rfl⟩

end AwsCreds

namespace AwsCreds

/-! ## The process environment -/

theorem lookupEnv_copyenvFrom (key : String) (seen : List String)
    (l : List (String × String)) :
    lookupEnv key (copyenvFrom seen l) = if key ∈ seen then none else lookupEnv key l := by
  induction l generalizing seen with
  | nil => simp [copyenvFrom, lookupEnv]
  | cons kv rest ih =>
    obtain ⟨k, v⟩ := kv
    by_cases hk : k ∈ seen
    · simp only [copyenvFrom, hk, if_true, ih, lookupEnv]
      by_cases hkey : key ∈ seen
      · simp [hkey]
      · have : k ≠ key := fun h => hkey (h ▸ hk)
        simp [hkey, this]
    · simp only [copyenvFrom, hk, if_false, lookupEnv, ih]
      by_cases hkk : k = key
      · subst hkk; simp [hk]
      · have hkk2 : ¬ key = k := fun h => hkk h.symm
        simp [hkk, hkk2]

theorem lookupEnv_copyenv (key : String) (l : List (String × String)) :
    lookupEnv key (copyenv l) = lookupEnv key l := by
  simp [copyenv, lookupEnv_copyenvFrom]

theorem copyenvFrom_keys (seen : List String) (l : List (String × String)) :
    ((copyenvFrom seen l).map Prod.fst).Nodup ∧
      ∀ k ∈ (copyenvFrom seen l).map Prod.fst, k ∉ seen := by
  induction l generalizing seen with
  | nil => simp [copyenvFrom]
  | cons kv rest ih =>
    obtain ⟨k, v⟩ := kv
    by_cases hk : k ∈ seen
    · simpa [copyenvFrom, hk] using ih seen
    · obtain ⟨h1, h2⟩ := ih (k :: seen)
      simp only [copyenvFrom, hk, if_false, List.map_cons, List.nodup_cons, List.mem_cons]
      refine ⟨⟨fun hmem => ?_, h1⟩, ?_⟩
      · exact h2 k hmem (List.mem_cons_self _ _)
      · intro k2 hk2
        rcases hk2 with rfl | hk2
        · exact hk
        · exact fun hs => h2 k2 hk2 (List.mem_cons_of_mem _ hs)

theorem copyenvFrom_fixed (seen : List String) (l : List (String × String))
    (hnd : (l.map Prod.fst).Nodup) (hdisj : ∀ k ∈ l.map Prod.fst, k ∉ seen) :
    copyenvFrom seen l = l := by
  induction l generalizing seen with
  | nil => rfl
  | cons kv rest ih =>
    obtain ⟨k, v⟩ := kv
    simp only [List.map_cons, List.nodup_cons] at hnd
    have hk : k ∉ seen := hdisj k (by simp)
    simp only [copyenvFrom, hk, if_false, List.cons.injEq, true_and]
    apply ih _ hnd.2
    intro k2 hk2 hmem
    rcases List.mem_cons.1 hmem with rfl | hmem
    · exact hnd.1 hk2
    · exact hdisj k2 (by simp [hk2]) hmem

theorem copyenv_fixed (l : List (String × String)) (hnd : (l.map Prod.fst).Nodup) :
    copyenv l = l :=
  copyenvFrom_fixed [] l hnd (by simp)

theorem copyenv_nodup (l : List (String × String)) : ((copyenv l).map Prod.fst).Nodup :=
  (copyenvFrom_keys [] l).1

theorem setEntry_keys (key value : String) (l : List (String × String)) :
    ∀ k, k ∈ (setEntry key value l).map Prod.fst ↔ k = key ∨ k ∈ l.map Prod.fst := by
  induction l with
  | nil => simp [setEntry]
  | cons kv rest ih =>
    obtain ⟨k0, v0⟩ := kv
    intro k
    by_cases h0 : k0 = key
    · subst h0; simp [setEntry]
    · simp only [setEntry, h0, if_false, List.map_cons, List.mem_cons, ih]
      tauto

theorem setEntry_nodup (key value : String) (l : List (String × String))
    (hnd : (l.map Prod.fst).Nodup) : ((setEntry key value l).map Prod.fst).Nodup := by
  induction l with
  | nil => simp [setEntry]
  | cons kv rest ih =>
    obtain ⟨k0, v0⟩ := kv
    simp only [List.map_cons, List.nodup_cons] at hnd
    by_cases h0 : k0 = key
    · subst h0; simpa [setEntry] using hnd
    · simp only [setEntry, h0, if_false, List.map_cons, List.nodup_cons]
      refine ⟨fun hmem => ?_, ih hnd.2⟩
      rcases (setEntry_keys key value rest k0).1 hmem with h | h
      · exact h0 h
      · exact hnd.1 h

theorem lookupEnv_setEntry (key key2 value : String) (l : List (String × String)) :
    lookupEnv key (setEntry key2 value l) =
      if key = key2 then some value else lookupEnv key l := by
  induction l with
  | nil =>
    by_cases h : key = key2
    · simp [setEntry, lookupEnv, h]
    · have h2 : ¬ key2 = key := fun e => h e.symm
      simp [setEntry, lookupEnv, h, h2]
  | cons kv rest ih =>
    obtain ⟨k0, v0⟩ := kv
    by_cases h0 : k0 = key2
    · subst h0
      by_cases h : key = k0
      · simp [setEntry, lookupEnv, h]
      · have h2 : ¬ k0 = key := fun e => h e.symm
        simp [setEntry, lookupEnv, h, h2]
    · simp only [setEntry, h0, if_false, lookupEnv, ih]
      by_cases h : k0 = key
      · have h3 : ¬ key = key2 := fun e => h0 (h.trans e)
        simp [h, h3]
      · simp [h]

theorem mem_iff_lookupEnv (l : List (String × String)) (hnd : (l.map Prod.fst).Nodup)
    (k v : String) : (k, v) ∈ l ↔ lookupEnv k l = some v := by
  induction l with
  | nil => simp [lookupEnv]
  | cons kv rest ih =>
    obtain ⟨k0, v0⟩ := kv
    simp only [List.map_cons, List.nodup_cons] at hnd
    by_cases h0 : k0 = k
    · subst h0
      simp only [List.mem_cons, Prod.mk.injEq, true_and, lookupEnv, if_true, Option.some.injEq]
      constructor
      · rintro (h | h)
        · exact h.symm
        · exact absurd (List.mem_map_of_mem Prod.fst h) hnd.1
      · intro h; exact Or.inl h.symm
    · have h1 : ¬ k = k0 := fun e => h0 e.symm
      simp [lookupEnv, h0, h1, ih hnd.2]

end AwsCreds

namespace AwsCreds

theorem Setenv_apply (key value : String) (w : World) (hk : badKey key = false)
    (hv : hasNul value = false) :
    Setenv key value w = (.ret none, { w with envs := setEntry key value (copyenv w.envs) }) := by
  simp [Setenv, syscallSetenv, hk, hv]

end AwsCreds

namespace AwsCreds

/-! ## The cache store -/

/-- C1, as the code behaves: when the cache file does not exist, `loadCache` returns not
found together with the non-nil error of `os.Open` (the `os.IsNotExist` case returns
`err`, as `default` does), and `getMFACreds` returns that error at once, leaving the
world as it was: the prompt is never reached. -/
theorem loadCache_missing_file_returns_error (w : World) (sess : Session)
    (h : w.fs.node w.cacheFile = .missing) :
    loadCache w = (.ret (none, false, some (.lib (.notExist
        ("open " ++ w.cacheFile ++ ": no such file or directory")))), w) ∧
      getMFACreds sess w = (.ret (none, some (.lib (.notExist
        ("open " ++ w.cacheFile ++ ": no such file or directory")))), w) := by
  refine ⟨loadCache_missing w h, ?_⟩
  simp [getMFACreds, bind_apply, M.bind, loadCache_missing w h, pure_apply]

/-- The world `sampleWorld` has no cache file: `loadCache` returns the error of
`os.Open` and `getMFACreds` does nothing. -/
theorem loadCache_missing_file_returns_error_witness :
    (loadCache sampleWorld).1 = .ret (none, false, some (.lib (.notExist
        "open /home/u/.aws/credcache.json: no such file or directory"))) ∧
      (getMFACreds .base sampleWorld).2.trace = [] := by
  have h := loadCache_missing_file_returns_error sampleWorld .base rfl
  exact ⟨by rw [h.1]; rfl, by rw [h.2]; rfl⟩

/-- C2 as stated fails: with exactly one hour left on a clock that stands still, the
cached record is returned as found. -/
theorem loadCache_exactly_one_hour_left :
    ¬ ∀ (w : World) (c : Credentials) (exp now : Time),
        w.fs.node w.cacheFile = .file (.record c) → c.Expiration = some exp →
        (∀ n, w.clock n = now) →
        (exp.unixNano < now.unixNano ∨ exp.unixNano - now.unixNano ≤ Hour) →
        (loadCache w).1 = .ret (none, false, none) := by
  intro h
  have h1 := h (worldWithCache (credsExpiringIn 3600000000000)) (credsExpiringIn 3600000000000)
    ⟨sampleNow.unixNano + 3600000000000⟩ sampleNow rfl rfl (fun _ => rfl)
    (Or.inr (by decide))
  revert h1
  decide

/-- C2, amended: a decoded record whose expiration is before the clock reading of the
first test, or less than one hour after the clock reading of the second, is not
returned: `loadCache` gives no record, `found = false` and a nil error. -/
theorem loadCache_stale (w : World) (c : Credentials) (exp : Time)
    (h : w.fs.node w.cacheFile = .file (.record c)) (hexp : c.Expiration = some exp)
    (hstale : exp.unixNano < (w.clock w.ticks).unixNano ∨
      exp.unixNano - (w.clock (w.ticks + 1)).unixNano < Hour) :
    (loadCache w).1 = .ret (none, false, none) := by
  rw [loadCache_record_some w c exp h hexp]
  by_cases h1 : exp.Before (w.clock w.ticks) = true
  · simp [h1]
  · have h2 : Duration.neg (Since (w.clock (w.ticks + 1)) exp) < Hour := by
      rw [remaining_lt_hour_iff]
      rcases hstale with hs | hs
      · exact absurd ((before_iff _ _).2 hs) h1
      · exact Or.inl hs
    simp [h1, h2]

/-- A record with one nanosecond less than an hour left is not returned. -/
theorem loadCache_stale_witness :
    (loadCache (worldWithCache (credsExpiringIn 3599999999999))).1
      = .ret (none, false, none) :=
  loadCache_stale (worldWithCache (credsExpiringIn 3599999999999))
    (credsExpiringIn 3599999999999) ⟨sampleNow.unixNano + 3599999999999⟩ rfl rfl
    (Or.inr (by decide))

/-- A decoded record whose expiration is not before the first clock reading and at
least one hour, and less than `2^63` nanoseconds, after the second is returned as
found, unchanged, with a nil error. -/
theorem loadCache_fresh (w : World) (c : Credentials) (exp : Time)
    (h : w.fs.node w.cacheFile = .file (.record c)) (hexp : c.Expiration = some exp)
    (h1 : (w.clock w.ticks).unixNano ≤ exp.unixNano)
    (h2 : Hour ≤ exp.unixNano - (w.clock (w.ticks + 1)).unixNano)
    (h3 : exp.unixNano - (w.clock (w.ticks + 1)).unixNano ≤ maxDuration) :
    loadCache w = (.ret (some c, true, none), { w with ticks := w.ticks + 1 + 1 }) := by
  rw [loadCache_record_some w c exp h hexp]
  have hb : ¬ exp.Before (w.clock w.ticks) = true := by
    rw [before_iff]; omega
  have hr : ¬ Duration.neg (Since (w.clock (w.ticks + 1)) exp) < Hour := by
    rw [remaining_lt_hour_iff]
    simp only [Duration, Hour, maxDuration] at h2 h3
    omega
  simp [hb, hr]

/-- C3, as the code behaves: a decoded record whose expiration lies `2^63` nanoseconds
(about 292 years) or more after the clock reading is not returned. `time.Since`
saturates at `minDuration`, its negation wraps to `minDuration`, and `loadCache`
logs that the credentials expire in less than one hour and reports not found. -/
theorem loadCache_far_expiry_not_found (w : World) (c : Credentials) (exp : Time)
    (h : w.fs.node w.cacheFile = .file (.record c)) (hexp : c.Expiration = some exp)
    (h1 : (w.clock w.ticks).unixNano ≤ exp.unixNano)
    (hfar : 9223372036854775808 ≤ exp.unixNano - (w.clock (w.ticks + 1)).unixNano) :
    loadCache w = (.ret (none, false, none),
      { w with ticks := w.ticks + 1 + 1,
               trace := w.trace ++
                 [.log "Cached credentials expire in less than 1 hour, refreshing."] }) := by
  rw [loadCache_record_some w c exp h hexp]
  have hb : ¬ exp.Before (w.clock w.ticks) = true := by
    rw [before_iff]; omega
  have hr : Duration.neg (Since (w.clock (w.ticks + 1)) exp) < Hour := by
    rw [remaining_lt_hour_iff]; exact Or.inr hfar
  simp [hb, hr]

/-- A record expiring in the year 2400, read in 2026, is not returned. -/
theorem loadCache_far_expiry_not_found_witness :
    Hour < farExpiry.unixNano - sampleNow.unixNano ∧
      (loadCache (worldWithCache credsFarExpiry)).1 = .ret (none, false, none) := by
  refine ⟨by decide, ?_⟩
  rw [loadCache_far_expiry_not_found (worldWithCache credsFarExpiry) credsFarExpiry farExpiry
    rfl rfl (by decide) (by decide)]

/-- C10, as the code behaves: on a file that decodes without error into a record with
no expiration (such as `{}`), `loadCache` returns nothing: the call
`c.Expiration.Before(...)` dereferences the nil pointer and the run panics. -/
theorem loadCache_nil_expiration_panics (w : World) (c : Credentials)
    (h : w.fs.node w.cacheFile = .file (.record c)) (hexp : c.Expiration = none) :
    loadCache w = (.stop .nilDeref, w) :=
  loadCache_record_none w c h hexp

/-- A cache file holding `{}` makes `loadCache` panic. -/
theorem loadCache_nil_expiration_panics_witness :
    (loadCache (worldWithCache ⟨none, none, none, none⟩)).1 = .stop .nilDeref := by
  rw [loadCache_nil_expiration_panics (worldWithCache ⟨none, none, none, none⟩)
    ⟨none, none, none, none⟩ rfl rfl]

end AwsCreds

namespace AwsCreds

/-! ## `saveCache` -/

theorem jsonEncode_ok (c : Credentials) (content : FileContent)
    (h : jsonEncode (some c) = .ok content) : content = .record c := by
  unfold jsonEncode at h
  cases hexp : c.Expiration with
  | none => simp [hexp] at h; exact h.symm
  | some t =>
    simp only [hexp] at h
    split_ifs at h
    simp at h
    exact h.symm

/-- A successful `saveCache(c)` of a record creates the cache file and leaves in it
bytes that decode to `c`; nothing else of the world changes. -/
theorem saveCache_ok (w w1 : World) (c : Credentials)
    (h : saveCache (some c) w = (.ret none, w1)) :
    w1 = { w with fs := (w.fs.put w.cacheFile emptyFile).put w.cacheFile (.record c),
                  trace := w.trace ++ [.create w.cacheFile] } := by
  simp only [saveCache, bind_apply, M.bind, cachePath_apply, osCreate] at h
  cases hc : w.fs.createErr w.cacheFile with
  | some e => simp [hc, pure_apply] at h
  | none =>
    simp only [hc, encodeTo] at h
    cases hj : jsonEncode (some c) with
    | error e => simp [hj] at h
    | ok content =>
      have hcontent := jsonEncode_ok c content hj
      subst hcontent
      simp only [hj, FS.put] at h
      cases hw : w.fs.writeErr w.cacheFile with
      | some e => simp [hw] at h
      | none =>
        simp only [hw, Prod.mk.injEq, true_and] at h
        rw [← h]
        rfl

theorem saveCache_ok_node (w w1 : World) (c : Credentials)
    (h : saveCache (some c) w = (.ret none, w1)) :
    w1.fs.node w1.cacheFile = .file (.record c) ∧ w1.clock = w.clock ∧ w1.ticks = w.ticks := by
  rw [saveCache_ok w w1 c h]
  simp [World.cacheFile, FS.put]

/-- Round trip inside the range of `time.Duration`: after a successful `saveCache(c)`,
with the expiration of `c` not before the first clock reading and at least one hour,
and less than `2^63` nanoseconds, after the second, `loadCache` returns `c` as
found. -/
theorem saveCache_loadCache_round_trip (w w1 : World) (c : Credentials) (exp : Time)
    (hexp : c.Expiration = some exp) (hsave : saveCache (some c) w = (.ret none, w1))
    (h1 : (w.clock w.ticks).unixNano ≤ exp.unixNano)
    (h2 : Hour ≤ exp.unixNano - (w.clock (w.ticks + 1)).unixNano)
    (h3 : exp.unixNano - (w.clock (w.ticks + 1)).unixNano ≤ maxDuration) :
    (loadCache w1).1 = .ret (some c, true, none) := by
  obtain ⟨hn, hc, ht⟩ := saveCache_ok_node w w1 c hsave
  rw [loadCache_fresh w1 c exp hn hexp (by rw [hc, ht]; exact h1) (by rw [hc, ht]; exact h2)
    (by rw [hc, ht]; exact h3)]

/-- C4, as the code behaves: after a successful `saveCache(c)` of a record whose
expiration lies `2^63` nanoseconds or more after the clock reading, the following
`loadCache` reports not found and returns no record: `time.Since` saturates at
`minDuration` and its negation wraps, as for any cached record that far ahead. -/
theorem saveCache_loadCache_far_expiry (w w1 : World) (c : Credentials) (exp : Time)
    (hexp : c.Expiration = some exp) (hsave : saveCache (some c) w = (.ret none, w1))
    (h1 : (w.clock w.ticks).unixNano ≤ exp.unixNano)
    (hfar : 9223372036854775808 ≤ exp.unixNano - (w.clock (w.ticks + 1)).unixNano) :
    (loadCache w1).1 = .ret (none, false, none) := by
  obtain ⟨hn, hc, ht⟩ := saveCache_ok_node w w1 c hsave
  have hw : (w1.clock w1.ticks).unixNano ≤ exp.unixNano := by rw [hc, ht]; exact h1
  have hf : 9223372036854775808 ≤ exp.unixNano - (w1.clock (w1.ticks + 1)).unixNano := by
    rw [hc, ht]; exact hfar
  have hb : ¬ exp.Before (w1.clock w1.ticks) = true := by
    rw [before_iff]; omega
  have hr : Duration.neg (Since (w1.clock (w1.ticks + 1)) exp) < Hour := by
    rw [remaining_lt_hour_iff]; exact Or.inr hf
  rw [loadCache_record_some w1 c exp hn hexp]
  simp [hb, hr]

/-- Saving credentials that expire in the year 2400 succeeds, and loading them in 2026
reports not found. -/
theorem saveCache_loadCache_far_expiry_witness :
    (saveCache (some credsFarExpiry) sampleWorld).1 = .ret none ∧
      (loadCache (saveCache (some credsFarExpiry) sampleWorld).2).1
        = .ret (none, false, none) :=
  ⟨by decide,
    saveCache_loadCache_far_expiry sampleWorld (saveCache (some credsFarExpiry) sampleWorld).2
      credsFarExpiry farExpiry rfl rfl (by decide) (by decide)⟩

end AwsCreds

namespace AwsCreds

theorem saveCache_text_ne (s : String) : "saveCache: " ++ s ≠ "PIN entry cancelled" := by
  intro h
  have h2 := congrArg String.data h
  rw [String.data_append] at h2
  have h3 : ("saveCache: ".data ++ s.data).head? = "PIN entry cancelled".data.head? :=
    congrArg List.head? h2
  have h4 : ("saveCache: ".data ++ s.data).head? = some (Char.ofNat 115) := rfl
  have h5 : "PIN entry cancelled".data.head? = some (Char.ofNat 80) := rfl
  rw [h4, h5] at h3
  revert h3
  decide

end AwsCreds

namespace AwsCreds

/-! ## `getMFACreds` -/

/-- Every error `loadCache` returns is a library error passed along unchanged. -/
theorem loadCache_error_lib (w : World) (cached : Option Credentials) (ok : Bool)
    (e : GoError) (h : (loadCache w).1 = .ret (cached, ok, some e)) :
    ∃ le : LibError, e = .lib le := by
  cases hn : w.fs.node w.cacheFile with
  | missing => rw [loadCache_missing w hn] at h; simp at h; exact ⟨_, h.2.2.symm⟩
  | failing e1 => rw [loadCache_failing w e1 hn] at h; simp at h; exact ⟨_, h.2.2.symm⟩
  | file content =>
    cases content with
    | invalid e1 => rw [loadCache_invalid w e1 hn] at h; simp at h; exact ⟨_, h.2.2.symm⟩
    | record c =>
      cases hexp : c.Expiration with
      | none => rw [loadCache_record_none w c hn hexp] at h; simp at h
      | some exp =>
        rw [loadCache_record_some w c exp hn hexp] at h
        split_ifs at h <;> simp at h

/-- The run of `getMFACreds` after a cache miss that left the world `w1`: the serial is
read, the prompt is shown, and its answer decides. -/
theorem getMFACreds_miss (sess : Session) (w w1 : World) (cached : Option Credentials)
    (arg0 : String) (rest : List String)
    (hmiss : loadCache w = (.ret (cached, false, none), w1))
    (hargs : w1.Args = arg0 :: rest) :
    getMFACreds sess w =
      match w1.GetPIN ("AWS MFA for " ++ arg0) ("Enter MFA token for " ++ w1.mfaSerial) with
      | .error err =>
        (.ret (none, some (if err = .ErrCancel then GoError.Errorf "PIN entry cancelled"
            else .lib err)),
          { w1 with trace := w1.trace ++
              [.getPIN ("AWS MFA for " ++ arg0) ("Enter MFA token for " ++ w1.mfaSerial)] })
      | .ok token =>
        M.bind (getSessionToken sess w1.mfaSerial token) (fun r =>
          match r.2 with
          | some e => pure (none, some e)
          | none =>
            M.bind (saveCache r.1) (fun err =>
              match err with
              | some e => pure (none, some (.Errorf ("saveCache: " ++ e.Error)))
              | none => pure (r.1, none)))
          { w1 with trace := w1.trace ++
              [.getPIN ("AWS MFA for " ++ arg0) ("Enter MFA token for " ++ w1.mfaSerial)] } := by
  simp only [getMFACreds, bind_apply, M.bind, hmiss, Bool.false_eq_true, if_false, Getenv,
    mfaPrompt, hargs, World.mfaSerial]
  cases hp : w1.GetPIN ("AWS MFA for " ++ arg0)
      ("Enter MFA token for " ++ (lookupEnv "AWS_MFA_SERIAL" (copyenv w1.envs)).getD "") with
  | error err =>
    by_cases hc : err = .ErrCancel
    · simp [hc, pure_apply]
    · simp [hc, pure_apply]
  | ok token =>
    simp only []
    cases hs : getSessionToken sess ((lookupEnv "AWS_MFA_SERIAL" (copyenv w1.envs)).getD "")
        token { w1 with trace := w1.trace ++ [.getPIN ("AWS MFA for " ++ arg0)
          ("Enter MFA token for " ++ (lookupEnv "AWS_MFA_SERIAL" (copyenv w1.envs)).getD "")] } with
    | mk r w2 =>
      cases r with
      | stop s => rfl
      | ret x =>
        obtain ⟨creds, err⟩ := x
        cases err with
        | some e => rfl
        | none => rfl

end AwsCreds

namespace AwsCreds

/-- The error `PIN entry cancelled` comes out of `getMFACreds` only when the prompt was
reached and reported `pinentry.ErrCancel`. -/
theorem getMFACreds_cancelled_only (sess : Session) (w : World) (creds : Option Credentials)
    (h : (getMFACreds sess w).1 = .ret (creds, some (.Errorf "PIN entry cancelled"))) :
    ∃ (arg0 : String) (rest : List String), w.Args = arg0 :: rest ∧
      w.GetPIN ("AWS MFA for " ++ arg0) ("Enter MFA token for " ++ w.mfaSerial)
        = .error .ErrCancel := by
  obtain ⟨n, logs, hw1, -⟩ := loadCache_world w
  cases hl : loadCache w with
  | mk res w1 =>
    rw [hl] at hw1
    simp only at hw1
    cases res with
    | stop s => simp [getMFACreds, bind_apply, M.bind, hl] at h
    | ret x =>
      obtain ⟨cached, ok, err⟩ := x
      cases err with
      | some e =>
        obtain ⟨le, hle⟩ := loadCache_error_lib w cached ok e (by rw [hl])
        subst hle
        simp [getMFACreds, bind_apply, M.bind, hl, pure_apply] at h
      | none =>
        cases ok with
        | true => simp [getMFACreds, bind_apply, M.bind, hl, pure_apply] at h
        | false =>
          have hA : w1.Args = w.Args := by rw [hw1]
          have hG : w1.GetPIN = w.GetPIN := by rw [hw1]
          have hS : w1.mfaSerial = w.mfaSerial := by rw [hw1]; rfl
          cases hargs : w1.Args with
          | nil =>
            simp [getMFACreds, bind_apply, M.bind, hl, Getenv, mfaPrompt, hargs] at h
          | cons arg0 rest =>
            rw [getMFACreds_miss sess w w1 cached arg0 rest hl hargs] at h
            refine ⟨arg0, rest, by rw [← hA, hargs], ?_⟩
            rw [← hG, ← hS]
            cases hp : w1.GetPIN ("AWS MFA for " ++ arg0)
                ("Enter MFA token for " ++ w1.mfaSerial) with
            | error err =>
              rw [hp] at h
              by_cases hc : err = .ErrCancel
              · rw [hc]
              · simp [hc] at h
            | ok token =>
              rw [hp] at h
              exfalso
              simp only [M.bind, getSessionToken] at h
              cases hs : w1.stsGetSessionToken sess w1.mfaSerial token with
              | error e => simp [hs, pure_apply] at h
              | ok c2 =>
                simp only [hs, M.bind] at h
                generalize saveCache c2 _ = r at h
                obtain ⟨r1, r2⟩ := r
                cases r1 with
                | stop s => simp at h
                | ret oe =>
                  cases oe with
                  | none => simp [pure_apply] at h
                  | some e =>
                    simp [pure_apply] at h
                    exact saveCache_text_ne _ h.2

/-- C5: when `loadCache` reports `found = true` with a record, `getMFACreds` returns
that record with a nil error, in the very world `loadCache` left; the record is
non-nil, and since that world has the trace and the file system of the start, no
prompt was shown, no session token was requested and the cache was not written. -/
theorem getMFACreds_cache_hit (sess : Session) (w w1 : World)
    (cached : Option Credentials) (err : Option GoError)
    (h : loadCache w = (.ret (cached, true, err), w1)) :
    getMFACreds sess w = (.ret (cached, none), w1) ∧ (∃ c, cached = some c) ∧
      w1.trace = w.trace ∧ w1.fs = w.fs := by
  obtain ⟨he, hc, ht, hf, -⟩ := loadCache_found w w1 cached err h
  subst he
  refine ⟨?_, hc, ht, hf⟩
  simp [getMFACreds, bind_apply, M.bind, h, pure_apply]

/-- A cached record with two hours left is returned and nothing is done. -/
theorem getMFACreds_cache_hit_witness :
    (getMFACreds .base (worldWithCache (credsExpiringIn 7200000000000))).1
        = .ret (some (credsExpiringIn 7200000000000), none) ∧
      (getMFACreds .base (worldWithCache (credsExpiringIn 7200000000000))).2.trace = [] := by
  have h := getMFACreds_cache_hit .base (worldWithCache (credsExpiringIn 7200000000000))
    (loadCache (worldWithCache (credsExpiringIn 7200000000000))).2
    (some (credsExpiringIn 7200000000000)) none (Prod.ext (by decide) rfl)
  exact ⟨by rw [h.1], by rw [h.1, h.2.2.1]; rfl⟩

end AwsCreds

namespace AwsCreds

/-- C6: after a cache miss, when the prompt reports `pinentry.ErrCancel`,
`getMFACreds` returns no credentials and the error `PIN entry cancelled`; beyond what
`loadCache` logged, the only thing done is the one call of the prompt, so the provider
was not called, and the file system is untouched. That error identifies the
cancellation: in every run, of any world, in which `getMFACreds` returns it, the prompt
was reached and reported `pinentry.ErrCancel`; every error passed along from the cache,
the prompt or the provider, and the wrapped error of `saveCache`, is another value. -/
theorem getMFACreds_pin_cancelled (sess : Session) (w : World)
    (cached : Option Credentials) (arg0 : String) (rest : List String)
    (hmiss : (loadCache w).1 = .ret (cached, false, none))
    (hargs : w.Args = arg0 :: rest)
    (hpin : w.GetPIN ("AWS MFA for " ++ arg0) ("Enter MFA token for " ++ w.mfaSerial)
      = .error .ErrCancel) :
    (getMFACreds sess w).1 = .ret (none, some (.Errorf "PIN entry cancelled")) ∧
      (∃ logs : List Event,
        (getMFACreds sess w).2.trace = w.trace ++ logs ++
          [.getPIN ("AWS MFA for " ++ arg0) ("Enter MFA token for " ++ w.mfaSerial)] ∧
        ∀ e ∈ logs, ∃ line, e = Event.log line) ∧
      (getMFACreds sess w).2.fs = w.fs ∧
      (∀ (sess2 : Session) (w2 : World) (creds2 : Option Credentials),
        (getMFACreds sess2 w2).1 = .ret (creds2, some (.Errorf "PIN entry cancelled")) →
        ∃ (a : String) (r : List String), w2.Args = a :: r ∧
          w2.GetPIN ("AWS MFA for " ++ a) ("Enter MFA token for " ++ w2.mfaSerial)
            = .error .ErrCancel) ∧
      (∀ le : LibError, GoError.lib le ≠ .Errorf "PIN entry cancelled") ∧
      (∀ le : LibError,
        GoError.Errorf ("saveCache: " ++ le.Error) ≠ .Errorf "PIN entry cancelled") := by
  obtain ⟨n, logs, hw1, hlogs⟩ := loadCache_world w
  have hl : loadCache w = (.ret (cached, false, none), (loadCache w).2) := Prod.ext hmiss rfl
  have hA : (loadCache w).2.Args = arg0 :: rest := by rw [hw1]; exact hargs
  have hS : (loadCache w).2.mfaSerial = w.mfaSerial := by rw [hw1]; rfl
  have hG : (loadCache w).2.GetPIN = w.GetPIN := by rw [hw1]
  have hrun := getMFACreds_miss sess w (loadCache w).2 cached arg0 rest hl hA
  rw [hG, hS, hpin] at hrun
  simp only [if_true] at hrun
  refine ⟨by rw [hrun], ⟨logs, ?_, hlogs⟩, ?_, ?_, ?_, ?_⟩
  · rw [hrun]
    show (loadCache w).2.trace ++ _ = _
    rw [hw1]
  · rw [hrun]
    show (loadCache w).2.fs = _
    rw [hw1]
  · intro sess2 w2 creds2 h
    exact getMFACreds_cancelled_only sess2 w2 creds2 h
  · intro le h
    cases h
  · intro le h
    exact saveCache_text_ne _ (GoError.Errorf.inj h)

/-- A cached record with one minute left and a cancelled prompt. -/
theorem getMFACreds_pin_cancelled_witness :
    (getMFACreds .base (worldWithCache (credsExpiringIn 60000000000))).1
      = .ret (none, some (.Errorf "PIN entry cancelled")) :=
  (getMFACreds_pin_cancelled .base (worldWithCache (credsExpiringIn 60000000000)) none
    "aws-creds" [] (by decide) rfl rfl).1

/-- C7: after a cache miss and an answered prompt, when the session-token exchange
fails with the error `e`, `getMFACreds` returns no credentials and exactly `e`; beyond
what `loadCache` logged, the only things done are the call of the prompt and the call
of the provider: `os.Create` is not called and the file system is as it was. -/
theorem getMFACreds_provider_error (sess : Session) (w : World)
    (cached : Option Credentials) (arg0 : String) (rest : List String) (token : String)
    (e : LibError)
    (hmiss : (loadCache w).1 = .ret (cached, false, none))
    (hargs : w.Args = arg0 :: rest)
    (hpin : w.GetPIN ("AWS MFA for " ++ arg0) ("Enter MFA token for " ++ w.mfaSerial)
      = .ok token)
    (hsts : w.stsGetSessionToken sess w.mfaSerial token = .error e) :
    (getMFACreds sess w).1 = .ret (none, some (.lib e)) ∧
      (∃ logs : List Event,
        (getMFACreds sess w).2.trace = w.trace ++ logs ++
          [.getPIN ("AWS MFA for " ++ arg0) ("Enter MFA token for " ++ w.mfaSerial),
            .getSessionToken sess w.mfaSerial token] ∧
        ∀ ev ∈ logs, ∃ line, ev = Event.log line) ∧
      (getMFACreds sess w).2.fs = w.fs := by
  obtain ⟨n, logs, hw1, hlogs⟩ := loadCache_world w
  have hl : loadCache w = (.ret (cached, false, none), (loadCache w).2) := Prod.ext hmiss rfl
  have hA : (loadCache w).2.Args = arg0 :: rest := by rw [hw1]; exact hargs
  have hS : (loadCache w).2.mfaSerial = w.mfaSerial := by rw [hw1]; rfl
  have hG : (loadCache w).2.GetPIN = w.GetPIN := by rw [hw1]
  have hT : (loadCache w).2.stsGetSessionToken = w.stsGetSessionToken := by rw [hw1]
  have hrun := getMFACreds_miss sess w (loadCache w).2 cached arg0 rest hl hA
  rw [hG, hS, hpin] at hrun
  simp only [M.bind, getSessionToken, hT, hsts, pure_apply] at hrun
  refine ⟨by rw [hrun], ⟨logs, ?_, hlogs⟩, ?_⟩
  · rw [hrun]
    show ((loadCache w).2.trace ++ _) ++ _ = _
    rw [hw1]
    simp
  · rw [hrun]
    show (loadCache w).2.fs = _
    rw [hw1]

/-- A cached record with one minute left, an answered prompt and a provider that
refuses. -/
theorem getMFACreds_provider_error_witness :
    (getMFACreds .base (worldWithPin (credsExpiringIn 60000000000))).1
      = .ret (none, some (.lib (.other "AccessDenied"))) :=
  (getMFACreds_provider_error .base (worldWithPin (credsExpiringIn 60000000000)) none
    "aws-creds" [] "123456" (.other "AccessDenied") (by decide) rfl rfl rfl).1

end AwsCreds

namespace AwsCreds

/-! ## Runs without `syscall.Exec` -/

theorem Extends.refl (w : World) : Extends w w :=
  ⟨rfl, [], by simp, by simp⟩

theorem Extends.trans {a b c : World} (h1 : Extends a b) (h2 : Extends b c) :
    Extends a c := by
  obtain ⟨ha, e1, ht1, hn1⟩ := h1
  obtain ⟨hb, e2, ht2, hn2⟩ := h2
  refine ⟨hb.trans ha, e1 ++ e2, by rw [ht2, ht1, List.append_assoc], ?_⟩
  intro e he
  rcases List.mem_append.1 he with h | h
  · exact hn1 e h
  · exact hn2 e h

theorem Extends.emit (w : World) (e : Event)
    (h : ∀ (p : String) (a : List String) (v : List (String × String)), e ≠ .exec p a v) :
    Extends w { w with trace := w.trace ++ [e] } :=
  ⟨rfl, [e], rfl, by intro e2 he; rw [List.mem_singleton.1 he]; exact h⟩

theorem quiet_pure {α : Type} (a : α) : Quiet (pure a : M α) :=
  fun w => ⟨by simp [pure_apply], Extends.refl w⟩

theorem quiet_halt {α : Type} (s : Stop) (h : s ≠ .replaced) : Quiet (halt s : M α) :=
  fun w => ⟨by simpa [halt] using h, Extends.refl w⟩

theorem quiet_bind {α β : Type} (m : M α) (f : α → M β) (hm : Quiet m)
    (hf : ∀ a, Quiet (f a)) : Quiet (m >>= f) := by
  intro w
  obtain ⟨h1, h2⟩ := hm w
  rw [bind_apply]
  unfold M.bind
  cases hmw : m w with
  | mk r w1 =>
    rw [hmw] at h1 h2
    cases r with
    | stop s =>
      dsimp only
      refine ⟨fun h => h1 ?_, h2⟩
      cases h
      rfl
    | ret a => dsimp only; exact ⟨(hf a w1).1, h2.trans (hf a w1).2⟩

theorem quiet_emit (e : Event)
    (h : ∀ (p : String) (a : List String) (v : List (String × String)), e ≠ .exec p a v) :
    Quiet (emit e) :=
  fun w => ⟨by simp [emit], Extends.emit w e h⟩

theorem quiet_timeNow : Quiet timeNow :=
  fun w => ⟨by simp [timeNow], ⟨rfl, [], by simp [timeNow], by simp⟩⟩

theorem quiet_Getenv (key : String) : Quiet (Getenv key) :=
  fun w => ⟨by simp [Getenv], Extends.refl w⟩

theorem quiet_osOpen (path : String) : Quiet (osOpen path) :=
  fun w => ⟨by simp [osOpen], Extends.refl w⟩

theorem quiet_mustNewSession : Quiet mustNewSession := by
  intro w
  unfold mustNewSession
  cases w.newSessionErr <;> exact ⟨by simp, Extends.refl w⟩

theorem quiet_logPrintf (line : String) : Quiet (logPrintf line) :=
  quiet_emit _ (by intro p a v h; cases h)

theorem quiet_logFatal {α : Type} (err : GoError) : Quiet (logFatal err : M α) :=
  quiet_bind _ _ (quiet_emit _ (by intro p a v h; cases h))
    (fun _ => quiet_halt _ (by intro h; cases h))

theorem quiet_cachePath : Quiet cachePath :=
  quiet_bind _ _ (quiet_Getenv _) (fun _ => quiet_pure _)

theorem quiet_osCreate (path : String) : Quiet (osCreate path) := by
  intro w
  unfold osCreate
  cases w.fs.createErr path <;>
    exact ⟨by simp, Extends.emit w _ (by intro p a v h; cases h)⟩

theorem quiet_encodeTo (path : String) (creds : Option Credentials) :
    Quiet (encodeTo path creds) := by
  intro w
  unfold encodeTo
  cases jsonEncode creds with
  | error e => exact ⟨by simp, Extends.refl w⟩
  | ok content =>
    cases w.fs.writeErr path with
    | some e => exact ⟨by simp, Extends.refl w⟩
    | none => exact ⟨by simp, ⟨rfl, [], by simp, by simp⟩⟩

theorem quiet_mfaPrompt (serial : String) : Quiet (mfaPrompt serial) := by
  intro w
  unfold mfaPrompt
  split
  · exact ⟨by simp, Extends.refl w⟩
  · exact ⟨by simp, Extends.emit w _ (by intro p a v h; cases h)⟩

theorem quiet_getSessionToken (sess : Session) (serial token : String) :
    Quiet (getSessionToken sess serial token) := by
  intro w
  unfold getSessionToken
  cases w.stsGetSessionToken sess serial token <;>
    exact ⟨by simp, Extends.emit w _ (by intro p a v h; cases h)⟩

theorem quiet_assumeRole (sess : Session) (arn sessionName : String) :
    Quiet (assumeRole sess arn sessionName) := by
  intro w
  unfold assumeRole
  cases w.stsAssumeRole sess 3600 arn sessionName <;>
    exact ⟨by simp, Extends.emit w _ (by intro p a v h; cases h)⟩

theorem quiet_loadCache : Quiet loadCache := by
  unfold loadCache
  refine quiet_bind _ _ quiet_cachePath (fun path => ?_)
  refine quiet_bind _ _ (quiet_osOpen _) (fun opened => ?_)
  cases opened with
  | error err => try dsimp only; split <;> exact quiet_pure _
  | ok fd =>
    cases fd with
    | invalid err => exact quiet_pure _
    | record c =>
      try dsimp only
      cases c.Expiration with
      | none => exact quiet_halt _ (by intro h; cases h)
      | some expiration =>
        refine quiet_bind _ _ quiet_timeNow (fun now => ?_)
        split
        · exact quiet_bind _ _ (quiet_logPrintf _) (fun _ => quiet_pure _)
        · refine quiet_bind _ _ quiet_timeNow (fun now2 => ?_)
          try dsimp only
          split
          · exact quiet_bind _ _ (quiet_logPrintf _) (fun _ => quiet_pure _)
          · exact quiet_pure _

theorem quiet_saveCache (creds : Option Credentials) : Quiet (saveCache creds) := by
  unfold saveCache
  refine quiet_bind _ _ quiet_cachePath (fun path => ?_)
  refine quiet_bind _ _ (quiet_osCreate _) (fun err => ?_)
  cases err with
  | some e => exact quiet_pure _
  | none => exact quiet_encodeTo _ _

theorem quiet_getMFACreds (sess : Session) : Quiet (getMFACreds sess) := by
  unfold getMFACreds
  refine quiet_bind _ _ quiet_loadCache (fun r => ?_)
  obtain ⟨cached, ok, err⟩ := r
  cases err with
  | some e => exact quiet_pure _
  | none =>
    try dsimp only
    split
    · exact quiet_pure _
    · refine quiet_bind _ _ (quiet_Getenv _) (fun serial => ?_)
      refine quiet_bind _ _ (quiet_mfaPrompt _) (fun prompted => ?_)
      cases prompted with
      | error e => try dsimp only; split <;> exact quiet_pure _
      | ok token =>
        refine quiet_bind _ _ (quiet_getSessionToken _ _ _) (fun r2 => ?_)
        obtain ⟨creds, err2⟩ := r2
        cases err2 with
        | some e => exact quiet_pure _
        | none =>
          refine quiet_bind _ _ (quiet_saveCache _) (fun err3 => ?_)
          cases err3 <;> exact quiet_pure _

theorem quiet_sessionWithCredentials (sess : Session) (c : Option Credentials) :
    Quiet (sessionWithCredentials sess c) := by
  unfold sessionWithCredentials
  cases c with
  | none => exact quiet_halt _ (by intro h; cases h)
  | some c =>
    try dsimp only
    split
    · exact quiet_pure _
    · exact quiet_halt _ (by intro h; cases h)

theorem quiet_untilExpiration (creds : Option Credentials) :
    Quiet (untilExpiration creds) := by
  unfold untilExpiration
  cases creds with
  | none => exact quiet_halt _ (by intro h; cases h)
  | some c =>
    try dsimp only
    cases c.Expiration with
    | none => exact quiet_halt _ (by intro h; cases h)
    | some t => exact quiet_bind _ _ quiet_timeNow (fun _ => quiet_pure _)

theorem quiet_printCreds (creds : Option Credentials) : Quiet (printCreds creds) := by
  unfold printCreds
  cases creds with
  | none => exact quiet_halt _ (by intro h; cases h)
  | some c =>
    try dsimp only
    split
    · exact quiet_emit _ (by intro p a v h; cases h)
    · exact quiet_halt _ (by intro h; cases h)

theorem quiet_roleCreds : Quiet roleCreds := by
  unfold roleCreds
  refine quiet_bind _ _ quiet_mustNewSession (fun baseSession => ?_)
  refine quiet_bind _ _ (quiet_getMFACreds _) (fun r => ?_)
  obtain ⟨creds, err⟩ := r
  cases err with
  | some e => exact quiet_logFatal e
  | none =>
    refine quiet_bind _ _ (quiet_untilExpiration _) (fun d => ?_)
    refine quiet_bind _ _ (quiet_emit _ (by intro p a v h; cases h)) (fun _ => ?_)
    refine quiet_bind _ _ (quiet_Getenv _) (fun arn => ?_)
    refine quiet_bind _ _ (quiet_Getenv _) (fun roleSessionName => ?_)
    refine quiet_bind _ _ (quiet_sessionWithCredentials _ _) (fun sess => ?_)
    refine quiet_bind _ _ (quiet_assumeRole _ _ _) (fun r2 => ?_)
    obtain ⟨creds2, err2⟩ := r2
    cases err2 with
    | some e => exact quiet_logFatal e
    | none =>
      refine quiet_bind _ _ (quiet_untilExpiration _) (fun d2 => ?_)
      exact quiet_bind _ _ (quiet_emit _ (by intro p a v h; cases h)) (fun _ => quiet_pure _)

end AwsCreds

namespace AwsCreds

/-! ## The dispatcher -/

theorem dispatch_no_args (creds : Option Credentials) (w : World) (arg0 : String)
    (h : w.Args = [arg0]) : dispatch creds w = printCreds creds w := by
  simp [dispatch, bind_apply, M.bind, osArgs, h]

/-- C8: `printCreds` writes to standard output exactly
`export AWS_ACCESS_KEY_ID=X AWS_SECRET_ACCESS_KEY=Y AWS_SESSION_TOKEN=Z` followed by a
newline, and does nothing else; and in a world whose `os.Args` holds the program name
only, the last step of `main` is `printCreds`, `main` is the role credentials followed
by `printCreds`, the process image is not replaced and no run of `main` calls
`syscall.Exec`. -/
theorem printCreds_export_line (w w2 : World) (c : Credentials) (X Y Z arg0 : String)
    (hX : c.AccessKeyId = some X) (hY : c.SecretAccessKey = some Y)
    (hZ : c.SessionToken = some Z) (hargs : w2.Args = [arg0]) :
    printCreds (some c) w = (.ret (), { w with trace := w.trace ++
        [.stdout ("export AWS_ACCESS_KEY_ID=" ++ X ++ " AWS_SECRET_ACCESS_KEY=" ++ Y ++
          " AWS_SESSION_TOKEN=" ++ Z ++ "\n")] }) ∧
      (∀ creds, dispatch creds w2 = printCreds creds w2) ∧
      main w2 = (roleCreds >>= printCreds) w2 ∧
      (main w2).1 ≠ .stop .replaced ∧
      ∃ evs : List Event, (main w2).2.trace = w2.trace ++ evs ∧
        ∀ e ∈ evs, ∀ (p : String) (a : List String) (v : List (String × String)),
          e ≠ Event.exec p a v := by
  have hmain : main w2 = (roleCreds >>= printCreds) w2 := by
    simp only [main, bind_apply, M.bind]
    have hq := (quiet_roleCreds w2).2.1
    cases hr : roleCreds w2 with
    | mk r w1 =>
      rw [hr] at hq
      cases r with
      | stop s => rfl
      | ret creds => exact dispatch_no_args creds w1 arg0 (hq.trans hargs)
  have hquiet := quiet_bind roleCreds printCreds quiet_roleCreds quiet_printCreds w2
  refine ⟨?_, fun creds => dispatch_no_args creds w2 arg0 hargs, hmain, ?_, ?_⟩
  · simp only [printCreds, hX, hY, hZ, fmtPrint, emit, String.join, List.foldl]
    rfl
  · rw [hmain]; exact hquiet.1
  · rw [hmain]; exact hquiet.2.2

/-- The line printed for `sampleRoleCreds`, and `main` without trailing arguments. -/
theorem printCreds_export_line_witness :
    (printCreds (some sampleRoleCreds) sampleWorld).2.trace =
        [.stdout
          "export AWS_ACCESS_KEY_ID=ASIAROLE AWS_SECRET_ACCESS_KEY=rolesecret AWS_SESSION_TOKEN=roletoken\n"] ∧
      main sampleWorld = (roleCreds >>= printCreds) sampleWorld := by
  have h := printCreds_export_line sampleWorld sampleWorld sampleRoleCreds "ASIAROLE"
    "rolesecret" "roletoken" "aws-creds" rfl rfl rfl rfl
  exact ⟨by rw [h.1]; decide, h.2.2.1⟩

/-- C9 as stated fails: for credentials whose access key id holds a NUL byte,
`os.Setenv` fails with `EINVAL`, its result is dropped, and the environment handed to
`syscall.Exec` has no entry `AWS_ACCESS_KEY_ID` with that value. -/
theorem runWithCreds_nul_value_not_set :
    ¬ ∀ (w : World) (c : Credentials) (id secret token arg0 : String)
        (rest : List String) (p : String),
        c.AccessKeyId = some id → c.SecretAccessKey = some secret →
        c.SessionToken = some token → w.LookPath arg0 = .ok p →
        ∃ envv : List (String × String),
          (runWithCreds (some c) (arg0 :: rest) w).2.trace
              = w.trace ++ [.exec p (arg0 :: rest) envv] ∧
          ("AWS_ACCESS_KEY_ID", id) ∈ envv ∧
          ("AWS_SECRET_ACCESS_KEY", secret) ∈ envv ∧
          ("AWS_SESSION_TOKEN", token) ∈ envv := by
  intro h
  obtain ⟨envv, ht, hm, -⟩ := h sampleWorld credsWithNul (String.mk [Char.ofNat 0])
    "rolesecret" "roletoken" "echo" ["hi"] "/bin/echo" rfl rfl rfl rfl
  have hc : (runWithCreds (some credsWithNul) ["echo", "hi"] sampleWorld).2.trace =
      [.exec "/bin/echo" ["echo", "hi"]
        [("HOME", "/home/u"), ("AWS_MFA_SERIAL", "mfa/u"), ("AWS_SESSION_TOKEN", "roletoken"),
          ("AWS_SECRET_ACCESS_KEY", "rolesecret")]] := by
    decide
  rw [hc] at ht
  have he : envv = [("HOME", "/home/u"), ("AWS_MFA_SERIAL", "mfa/u"),
      ("AWS_SESSION_TOKEN", "roletoken"), ("AWS_SECRET_ACCESS_KEY", "rolesecret")] := by
    simp [sampleWorld] at ht
    exact ht.symm
  subst he
  revert hm
  decide

/-- C9, amended: for credentials whose three values hold no NUL byte and a non-empty
argument list whose first element `exec.LookPath` resolves to `p`, `runWithCreds` calls
`syscall.Exec` once, with the path `p`, the argument list unchanged and an environment
`envv` in which each of `AWS_ACCESS_KEY_ID`, `AWS_SECRET_ACCESS_KEY` and
`AWS_SESSION_TOKEN` has exactly one entry, holding the credential field, and in which
every other key has exactly the entry with its inherited value (the value of its
first mention in the inherited environment). -/
theorem runWithCreds_exec (w : World) (c : Credentials) (id secret token : String)
    (arg0 : String) (rest : List String) (p : String)
    (hid : c.AccessKeyId = some id) (hsecret : c.SecretAccessKey = some secret)
    (htoken : c.SessionToken = some token)
    (nid : hasNul id = false) (nsecret : hasNul secret = false)
    (ntoken : hasNul token = false)
    (hp : w.LookPath arg0 = .ok p) :
    ∃ envv : List (String × String),
      (runWithCreds (some c) (arg0 :: rest) w).2.trace
          = w.trace ++ [.exec p (arg0 :: rest) envv] ∧
      (∀ v, ("AWS_ACCESS_KEY_ID", v) ∈ envv ↔ v = id) ∧
      (∀ v, ("AWS_SECRET_ACCESS_KEY", v) ∈ envv ↔ v = secret) ∧
      (∀ v, ("AWS_SESSION_TOKEN", v) ∈ envv ↔ v = token) ∧
      (∀ k v, k ≠ "AWS_ACCESS_KEY_ID" → k ≠ "AWS_SECRET_ACCESS_KEY" →
        k ≠ "AWS_SESSION_TOKEN" → ((k, v) ∈ envv ↔ lookupEnv k w.envs = some v)) := by
  have hb1 : badKey "AWS_ACCESS_KEY_ID" = false := by decide
  have hb2 : badKey "AWS_SECRET_ACCESS_KEY" = false := by decide
  have hb3 : badKey "AWS_SESSION_TOKEN" = false := by decide
  have n1 := setEntry_nodup "AWS_ACCESS_KEY_ID" id _ (copyenv_nodup w.envs)
  have n2 := setEntry_nodup "AWS_SECRET_ACCESS_KEY" secret _ n1
  have n3 := setEntry_nodup "AWS_SESSION_TOKEN" token _ n2
  refine ⟨setEntry "AWS_SESSION_TOKEN" token (setEntry "AWS_SECRET_ACCESS_KEY" secret
    (setEntry "AWS_ACCESS_KEY_ID" id (copyenv w.envs))), ?_, ?_, ?_, ?_, ?_⟩
  · simp only [runWithCreds, hid, hsecret, htoken, bind_apply, M.bind,
      Setenv_apply _ _ _ hb1 nid, Setenv_apply _ _ _ hb2 nsecret,
      Setenv_apply _ _ _ hb3 ntoken, execLookPath, hp, Environ, syscallExec, copyenv_fixed _ n1,
      copyenv_fixed _ n2, copyenv_fixed _ n3]
    cases w.execve p (arg0 :: rest) _ <;> rfl
  · intro v
    rw [mem_iff_lookupEnv _ n3]
    simp [lookupEnv_setEntry]
    exact eq_comm
  · intro v
    rw [mem_iff_lookupEnv _ n3]
    simp [lookupEnv_setEntry]
    exact eq_comm
  · intro v
    rw [mem_iff_lookupEnv _ n3]
    simp [lookupEnv_setEntry]
    exact eq_comm
  · intro k v h1 h2 h3
    rw [mem_iff_lookupEnv _ n3]
    simp [lookupEnv_setEntry, h1, h2, h3, lookupEnv_copyenv]


/-- Running `echo hi` from `sampleWorld`: the inherited `AWS_SESSION_TOKEN=old` is
overridden and `HOME` is passed on. -/
theorem runWithCreds_exec_witness :
    ∃ envv : List (String × String),
      (runWithCreds (some sampleRoleCreds) ["echo", "hi"] sampleWorld).2.trace
          = [.exec "/bin/echo" ["echo", "hi"] envv] ∧
      ("AWS_SESSION_TOKEN", "roletoken") ∈ envv ∧ ("AWS_SESSION_TOKEN", "old") ∉ envv ∧
      ("HOME", "/home/u") ∈ envv := by
  obtain ⟨envv, ht, -, -, h3, h4⟩ := runWithCreds_exec sampleWorld sampleRoleCreds "ASIAROLE"
    "rolesecret" "roletoken" "echo" ["hi"] "/bin/echo" rfl rfl rfl (by decide) (by decide)
    (by decide) rfl
  refine ⟨envv, ht, (h3 _).2 rfl, fun h => ?_, ?_⟩
  · exact absurd ((h3 _).1 h) (by decide)
  · exact (h4 "HOME" "/home/u" (by decide) (by decide) (by decide)).2 (by decide)

end AwsCreds
